import Mathlib

/-!
Verification of the 2048 game core (src/src/game.py).

The Python class Game (size, grid, score) is embedded shallowly:
the grid is a list of rows of natural numbers, and the two random
draws made by the spawner (which empty cell to fill, and whether the
new tile is a 4 or a 2) are passed in as explicit parameters, so every
operation is a pure function of the state and those draws.
-/

namespace Game2048

/-- Embedding of the Python dataclass Game: board size, grid (list of rows),
and current score. -/
structure Game where
  size : Nat
  grid : List (List Nat)
  score : Nat
  deriving DecidableEq, Repr

/-- Grid cell access, embedding the Python expression grid[r][c].
Out-of-range indices default to 0; every claim is stated on well-formed
(size × size) grids, where all indices used by the code are in range. -/
def cellG (grid : List (List Nat)) (r c : Nat) : Nat :=
  (grid.getD r []).getD c 0

/-- Shape predicate: the grid is an n × n matrix (as Python's code assumes). -/
def ShapeN (grid : List (List Nat)) (n : Nat) : Prop :=
  grid.length = n ∧ ∀ row ∈ grid, row.length = n

/-- Well-formedness of a Game state: its grid is size × size. -/
def WF (g : Game) : Prop := ShapeN g.grid g.size

instance (grid : List (List Nat)) (n : Nat) : Decidable (ShapeN grid n) := by
  unfold ShapeN; infer_instance

instance (g : Game) : Decidable (WF g) := by
  unfold WF; infer_instance

/-- Embedding of Game._compress_line: keep the non-zero values in order and
pad with zeros to the original length. -/
def _compress_line (line : List Nat) : List Nat :=
  let new := line.filter (fun v => v != 0)
  new ++ List.replicate (line.length - new.length) 0

/-- One iteration of the merge scan in Game._merge_line: at index i, if
compressed[i] is non-zero and equals compressed[i+1], double the left cell,
zero the right cell and add the doubled value to the gained total. -/
def mergeStep (p : List Nat × Nat) (i : Nat) : List Nat × Nat :=
  let c := p.1
  if c.getD i 0 ≠ 0 ∧ c.getD i 0 = c.getD (i + 1) 0 then
    ((c.set i (2 * c.getD i 0)).set (i + 1) 0, p.2 + 2 * c.getD i 0)
  else p

/-- Embedding of Game._merge_line: compress, run the merge scan over indices
0 .. len-2, compress again; returns the final line and the gained score. -/
def _merge_line (line : List Nat) : List Nat × Nat :=
  let compressed := _compress_line line
  let p := (List.range (compressed.length - 1)).foldl mergeStep (compressed, 0)
  (_compress_line p.1, p.2)

/-- The final line produced by Game._merge_line. -/
def mergeRow (row : List Nat) : List Nat := (_merge_line row).1

/-- List of coordinates of empty cells, embedding the comprehension in
Game.spawn_random: [(r, c) for r in range(size) for c in range(size)
if grid[r][c] == 0]. -/
def emptyCells (g : Game) : List (Nat × Nat) :=
  ((List.range g.size).flatMap fun r =>
      (List.range g.size).map fun c => (r, c)).filter
    fun rc => cellG g.grid rc.1 rc.2 == 0

/-- Write value v into cell (r, c) of the grid (the assignment
grid[r][c] = v). -/
def setCell (grid : List (List Nat)) (r c v : Nat) : List (List Nat) :=
  grid.set r ((grid.getD r []).set c v)

/-- Embedding of Game.spawn_random. The two random draws are explicit
parameters: idx selects the empty cell (random.choice picks index
idx % |empty|, which ranges over exactly the uniform support), and four
tells whether random.random() < 0.1, i.e. whether the new tile is a 4. -/
def spawn_random (g : Game) (idx : Nat) (four : Bool) : Game :=
  let empty := emptyCells g
  if empty = [] then g
  else
    let rc := empty.getD (idx % empty.length) (0, 0)
    { g with grid := setCell g.grid rc.1 rc.2 (if four then 4 else 2) }

/-- The state produced by the first two statements of Game.reset: an
all-zero size × size grid and score 0. -/
def resetZero (g : Game) : Game :=
  { g with grid := List.replicate g.size (List.replicate g.size 0), score := 0 }

/-- Embedding of Game.reset: clear the board and score, then spawn
START_TILES = 2 tiles; the two spawns' random draws are explicit. -/
def reset (g : Game) (i1 : Nat) (f1 : Bool) (i2 : Nat) (f2 : Bool) : Game :=
  spawn_random (spawn_random (resetZero g) i1 f1) i2 f2

/-- One iteration of the row loop in Game.move_left: merge the row; if it
changed, store the new row, set moved and add the gained score, otherwise
keep the row. Accumulator: (rows so far, moved, total gained). -/
def moveRowsStep (acc : List (List Nat) × Bool × Nat) (row : List Nat) :
    List (List Nat) × Bool × Nat :=
  let res := _merge_line row
  if res.1 ≠ row then (acc.1 ++ [res.1], true, acc.2.2 + res.2)
  else (acc.1 ++ [row], acc.2.1, acc.2.2)

/-- Embedding of Game.move_left: merge every row; if anything changed, add
the accumulated gain to the score and spawn one tile. Returns the new state
and the moved flag. -/
def move_left (g : Game) (idx : Nat) (four : Bool) : Game × Bool :=
  let r := g.grid.foldl moveRowsStep ([], false, 0)
  if r.2.1 then
    (spawn_random { g with grid := r.1, score := g.score + r.2.2 } idx four, true)
  else
    ({ g with grid := r.1 }, false)

/-- Embedding of Game._reverse_grid: reverse every row. -/
def _reverse_grid (grid : List (List Nat)) : List (List Nat) :=
  grid.map List.reverse

/-- Embedding of Game._transpose_grid, Python's zip(*grid). zip truncates to
the shortest row, so on rectangular grids (the only grids the class ever
builds) it produces one output row per column index of the first row, row c
being [grid[r][c] for r in range(len(grid))]; that is what is written here. -/
def _transpose_grid (grid : List (List Nat)) : List (List Nat) :=
  (List.range (grid.headD []).length).map fun c => grid.map fun row => row.getD c 0

/-- Embedding of Game.move_right: reverse, move left, reverse back. -/
def move_right (g : Game) (idx : Nat) (four : Bool) : Game × Bool :=
  let g1 : Game := { g with grid := _reverse_grid g.grid }
  let r := move_left g1 idx four
  ({ r.1 with grid := _reverse_grid r.1.grid }, r.2)

/-- Embedding of Game.move_up: transpose, move left, transpose back. -/
def move_up (g : Game) (idx : Nat) (four : Bool) : Game × Bool :=
  let g1 : Game := { g with grid := _transpose_grid g.grid }
  let r := move_left g1 idx four
  ({ r.1 with grid := _transpose_grid r.1.grid }, r.2)

/-- Embedding of Game.move_down: transpose, move right, transpose back. -/
def move_down (g : Game) (idx : Nat) (four : Bool) : Game × Bool :=
  let g1 : Game := { g with grid := _transpose_grid g.grid }
  let r := move_right g1 idx four
  ({ r.1 with grid := _transpose_grid r.1.grid }, r.2)

/-- Embedding of Game.can_move: an empty cell, a horizontally adjacent equal
pair, or a vertically adjacent equal pair (each loop nest becomes an any). -/
def can_move (g : Game) : Bool :=
  ((List.range g.size).any fun r => (List.range g.size).any fun c =>
      cellG g.grid r c == 0) ||
  ((List.range g.size).any fun r => (List.range (g.size - 1)).any fun c =>
      cellG g.grid r c == cellG g.grid r (c + 1)) ||
  ((List.range g.size).any fun c => (List.range (g.size - 1)).any fun r =>
      cellG g.grid r c == cellG g.grid (r + 1) c)

/-- The grid-only part of move_left: every row replaced by its merged line,
no spawn (the Move Engine of the spec, and what the session writes back
for the rows that changed). -/
def mergedL (grid : List (List Nat)) : List (List Nat) :=
  grid.map mergeRow

/-- Grid-only move_right: reverse, merge rows, reverse back. -/
def mergedR (grid : List (List Nat)) : List (List Nat) :=
  _reverse_grid (mergedL (_reverse_grid grid))

/-- Grid-only move_up: transpose, merge rows, transpose back. -/
def mergedU (grid : List (List Nat)) : List (List Nat) :=
  _transpose_grid (mergedL (_transpose_grid grid))

/-- Grid-only move_down: transpose, reverse, merge rows, reverse, transpose. -/
def mergedD (grid : List (List Nat)) : List (List Nat) :=
  _transpose_grid (mergedR (_transpose_grid grid))

/-- Sum of the gained scores of all rows (leftward orientation). -/
def gainsL (grid : List (List Nat)) : Nat :=
  (grid.map fun r => (_merge_line r).2).sum

/-- Sum of the gained scores of all lines of a rightward move. -/
def gainsR (grid : List (List Nat)) : Nat := gainsL (_reverse_grid grid)

/-- Sum of the gained scores of all lines of an upward move. -/
def gainsU (grid : List (List Nat)) : Nat := gainsL (_transpose_grid grid)

/-- Sum of the gained scores of all lines of a downward move. -/
def gainsD (grid : List (List Nat)) : Nat := gainsR (_transpose_grid grid)

/-- Number of non-zero entries of a line. -/
def countNZ (l : List Nat) : Nat := (l.filter (fun v => v != 0)).length

/-- The merge scan of _merge_line: fold mergeStep over indices 0 .. len-2. -/
def mergePass (c : List Nat) : List Nat × Nat :=
  (List.range (c.length - 1)).foldl mergeStep (c, 0)

/-- Tile values: a cell is empty or holds a power of two that is at least 2. -/
def PTile (v : Nat) : Prop := v = 0 ∨ ∃ k, v = 2 ^ (k + 1)

/-- No two adjacent cells of the row can merge: at every interior position,
the left cell is empty or differs from its right neighbour. -/
def noMergeRow (row : List Nat) : Prop :=
  ∀ i < row.length - 1, row.getD i 0 = 0 ∨ row.getD i 0 ≠ row.getD (i + 1) 0

instance (row : List Nat) : Decidable (noMergeRow row) := by
  unfold noMergeRow; infer_instance

/-- Every row of the grid is merge-free in the horizontal direction. -/
def noMergeGrid (grid : List (List Nat)) : Prop :=
  ∀ row ∈ grid, noMergeRow row

instance (grid : List (List Nat)) : Decidable (noMergeGrid grid) := by
  unfold noMergeGrid; infer_instance

/-- The two grids agree everywhere except one cell, previously empty, that
now holds a 4 (when four is set) or a 2: exactly one tile was placed. -/
def SpawnDiff (old new : List (List Nat)) (n : Nat) (four : Bool) : Prop :=
  ∃ r c, r < n ∧ c < n ∧ cellG old r c = 0 ∧
    cellG new r c = (if four then 4 else 2) ∧
    ∀ r' c', ¬(r' = r ∧ c' = c) → cellG new r' c' = cellG old r' c'

/-- Board invariant: every cell is empty or a power of two that is ≥ 2. -/
def TilesOK (grid : List (List Nat)) : Prop := ∀ row ∈ grid, ∀ v ∈ row, PTile v

/-- Total of all cell values of the grid. -/
def gridSum (grid : List (List Nat)) : Nat := (grid.map List.sum).sum

/-- The state on which move_left's spawn runs when a left move changed the
board: merged grid installed and gain added, tile not yet spawned. -/
def preL (g : Game) : Game :=
  { g with grid := mergedL g.grid, score := g.score + gainsL g.grid }

/-- The state on which the spawn of a right move runs (the board is in the
reversed orientation at that point of move_right). -/
def preR (g : Game) : Game :=
  { g with
    grid := mergedL (_reverse_grid g.grid)
    score := g.score + gainsL (_reverse_grid g.grid) }

/-- The state on which the spawn of an upward move runs (transposed
orientation). -/
def preU (g : Game) : Game :=
  { g with
    grid := mergedL (_transpose_grid g.grid)
    score := g.score + gainsL (_transpose_grid g.grid) }

/-- The state on which the spawn of a downward move runs (transposed then
reversed orientation). -/
def preD (g : Game) : Game :=
  { g with
    grid := mergedL (_reverse_grid (_transpose_grid g.grid))
    score := g.score + gainsL (_reverse_grid (_transpose_grid g.grid)) }

/-- Property of one directional move required by claim C1: the moved flag is
on iff the merged grid differs, and a successful move scores the summed row
gains and then places exactly one new tile on the merged grid. -/
def MoveSpec (g : Game) (idx : Nat) (four : Bool)
    (mv : Game → Nat → Bool → Game × Bool)
    (merged : List (List Nat) → List (List Nat))
    (gains : List (List Nat) → Nat) : Prop :=
  ((mv g idx four).2 = true ↔ merged g.grid ≠ g.grid) ∧
  ((mv g idx four).2 = true →
    (mv g idx four).1.score = g.score + gains g.grid ∧
    SpawnDiff (merged g.grid) (mv g idx four).1.grid g.size four)

/-- Claim C1, stated for all four directions. -/
def C1Statement (g : Game) (idx : Nat) (four : Bool) : Prop :=
  MoveSpec g idx four move_left mergedL gainsL ∧
  MoveSpec g idx four move_right mergedR gainsR ∧
  MoveSpec g idx four move_up mergedU gainsU ∧
  MoveSpec g idx four move_down mergedD gainsD

/-- Claim C2: can_move is the three-way disjunction, and it is false on the
alternating full 4 x 4 grid. -/
def C2Statement (g : Game) : Prop :=
  (can_move g = true ↔
    ((∃ r < g.size, ∃ c < g.size, cellG g.grid r c = 0) ∨
     (∃ r < g.size, ∃ c, c + 1 < g.size ∧
        cellG g.grid r c = cellG g.grid r (c + 1)) ∨
     (∃ c < g.size, ∃ r, r + 1 < g.size ∧
        cellG g.grid r c = cellG g.grid (r + 1) c))) ∧
  can_move { size := 4, grid := [[2, 4, 2, 4], [4, 2, 4, 2], [2, 4, 2, 4], [4, 2, 4, 2]], score := 0 } = false

/-- Claim C4 as amended: each grid-only move is idempotent provided the
once-moved grid admits no further merge along that direction's lines
(columns are the lines of the vertical moves, hence the transposes). -/
def C4Statement (B : List (List Nat)) : Prop :=
  (noMergeGrid (mergedL B) → mergedL (mergedL B) = mergedL B) ∧
  (noMergeGrid (mergedR B) → mergedR (mergedR B) = mergedR B) ∧
  (noMergeGrid (_transpose_grid (mergedU B)) → mergedU (mergedU B) = mergedU B) ∧
  (noMergeGrid (_transpose_grid (mergedD B)) → mergedD (mergedD B) = mergedD B)

/-- Claim C6: a move whose merged grid equals the grid returns the state
untouched with moved = false, whatever the random draws (so no spawn). -/
def C6Statement (g : Game) : Prop :=
  (mergedL g.grid = g.grid → ∀ idx four, move_left g idx four = (g, false)) ∧
  (mergedR g.grid = g.grid → ∀ idx four, move_right g idx four = (g, false)) ∧
  (mergedU g.grid = g.grid → ∀ idx four, move_up g idx four = (g, false)) ∧
  (mergedD g.grid = g.grid → ∀ idx four, move_down g idx four = (g, false))

/-- Claim C7: spawn, reset and the four moves preserve the tile invariant. -/
def C7Statement (g : Game) (idx i1 i2 : Nat) (four f1 f2 : Bool) : Prop :=
  TilesOK (spawn_random g idx four).grid ∧
  TilesOK (reset g i1 f1 i2 f2).grid ∧
  TilesOK (move_left g idx four).1.grid ∧
  TilesOK (move_right g idx four).1.grid ∧
  TilesOK (move_up g idx four).1.grid ∧
  TilesOK (move_down g idx four).1.grid

/-- Claim C8: every spawn the core performs sees a non-empty list of empty
cells — after each successful move (on the state the code hands to the
spawner) and at both spawns of reset when the board size is at least 2 —
and a spawn with empty cells available always places a tile. -/
def C8Statement (g : Game) (idx i1 : Nat) (four f1 : Bool) : Prop :=
  ((move_left g idx four).2 = true → emptyCells (preL g) ≠ []) ∧
  ((move_right g idx four).2 = true → emptyCells (preR g) ≠ []) ∧
  ((move_up g idx four).2 = true → emptyCells (preU g) ≠ []) ∧
  ((move_down g idx four).2 = true → emptyCells (preD g) ≠ []) ∧
  (2 ≤ g.size → emptyCells (resetZero g) ≠ [] ∧
    emptyCells (spawn_random (resetZero g) i1 f1) ≠ []) ∧
  (∀ s : Game, WF s → emptyCells s ≠ [] → ∀ i f,
    ∃ r c, r < s.size ∧ c < s.size ∧ cellG s.grid r c = 0 ∧
      cellG (spawn_random s i f).grid r c = (if f then 4 else 2))

/-- Claim C10: the grid-only part of each move preserves the total of all
cell values. -/
def C10Statement (B : List (List Nat)) : Prop :=
  gridSum (mergedL B) = gridSum B ∧ gridSum (mergedR B) = gridSum B ∧
  gridSum (mergedU B) = gridSum B ∧ gridSum (mergedD B) = gridSum B

/-! ### General list lemmas used throughout -/

/-- getD past the end of the list returns the default. -/
lemma getD_of_le {α : Type} (l : List α) (d : α) {i : Nat} (h : l.length ≤ i) :
    l.getD i d = d := by
  rw [List.getD_eq_getElem?_getD, List.getElem?_eq_none h]
  rfl

/-- Two lists of equal length agreeing on getD at every index are equal. -/
lemma ext_getD {α : Type} (d : α) {A B : List α} (hlen : A.length = B.length)
    (h : ∀ i < A.length, A.getD i d = B.getD i d) : A = B := by
  refine List.ext_getElem hlen ?_
  intro i h1 h2
  have := h i h1
  rwa [List.getD_eq_getElem A d h1, List.getD_eq_getElem B d h2] at this

/-- A list is recovered by reading getD at each index below its length. -/
lemma range_map_getD (l : List Nat) :
    (List.range l.length).map (fun i => l.getD i 0) = l := by
  refine List.ext_getElem (by simp) ?_
  intro i h1 h2
  simp only [List.getElem_map, List.getElem_range]
  exact List.getD_eq_getElem l 0 h2

/-- getD on a reversed list reads the mirrored index. -/
lemma getD_reverse (l : List Nat) {i : Nat} (h : i < l.length) (d : Nat) :
    l.reverse.getD i d = l.getD (l.length - 1 - i) d := by
  have h1 : i < l.reverse.length := by simpa using h
  have h2 : l.length - 1 - i < l.length := by omega
  rw [List.getD_eq_getElem _ d h1, List.getD_eq_getElem _ d h2, List.getElem_reverse]

/-- getD after set at the written index. -/
lemma getD_set_self {α : Type} (l : List α) {i : Nat} (h : i < l.length) (a d : α) :
    (l.set i a).getD i d = a := by
  have h' : i < (l.set i a).length := by simpa using h
  rw [List.getD_eq_getElem _ d h']
  exact List.getElem_set_self _

/-- getD after set at any other index. -/
lemma getD_set_ne {α : Type} (l : List α) {i j : Nat} (h : i ≠ j) (a d : α) :
    (l.set i a).getD j d = l.getD j d := by
  by_cases hj : j < l.length
  · have hj' : j < (l.set i a).length := by simpa using hj
    rw [List.getD_eq_getElem _ d hj', List.getD_eq_getElem _ d hj]
    exact List.getElem_set_ne h _
  · rw [getD_of_le _ _ (by simpa using Nat.le_of_not_lt hj),
      getD_of_le _ _ (Nat.le_of_not_lt hj)]

/-- Setting index i replaces the old value by the new one inside the sum. -/
lemma sum_set_add (l : List Nat) (i a : Nat) (h : i < l.length) :
    (l.set i a).sum + l.getD i 0 = l.sum + a := by
  induction l generalizing i with
  | nil => simp at h
  | cons x tl ih =>
    cases i with
    | zero => simp [List.set]; omega
    | succ j =>
      have hj : j < tl.length := by simpa using h
      have := ih j hj
      simp only [List.set, List.sum_cons, List.getD_cons_succ]
      omega

lemma countNZ_cons (x : Nat) (l : List Nat) :
    countNZ (x :: l) = (if x ≠ 0 then 1 else 0) + countNZ l := by
  simp only [countNZ, List.filter_cons]
  by_cases hx : x = 0
  · simp [hx]
  · simp [hx, Nat.add_comm]

lemma countNZ_le_length (l : List Nat) : countNZ l ≤ l.length :=
  List.length_filter_le _ l

/-- A line contains a zero iff it has fewer non-zero entries than cells. -/
lemma zero_mem_iff_countNZ (l : List Nat) : 0 ∈ l ↔ countNZ l < l.length := by
  induction l with
  | nil => simp [countNZ]
  | cons x tl ih =>
    have hle := countNZ_le_length tl
    rw [countNZ_cons]
    by_cases hx : x = 0
    · subst hx
      simp only [List.mem_cons, List.length_cons, if_neg (by simp : ¬(0 : Nat) ≠ 0)]
      constructor
      · intro _; omega
      · intro _; simp
    · simp only [List.mem_cons, List.length_cons, if_pos hx]
      constructor
      · intro hm
        rcases hm with h0 | h0
        · exact absurd h0.symm hx
        · have := ih.mp h0; omega
      · intro hlt
        exact Or.inr (ih.mpr (by omega))

/-- Setting a non-zero cell to zero removes exactly one non-zero entry. -/
lemma countNZ_set_zero (l : List Nat) {i : Nat} (h : i < l.length)
    (hne : l.getD i 0 ≠ 0) : countNZ (l.set i 0) + 1 = countNZ l := by
  induction l generalizing i with
  | nil => simp at h
  | cons x tl ih =>
    cases i with
    | zero =>
      have hx : x ≠ 0 := by simpa using hne
      simp only [List.set, countNZ_cons]
      rw [if_neg (by simp), if_pos hx]
      omega
    | succ j =>
      have hj : j < tl.length := by simpa using h
      have hne' : tl.getD j 0 ≠ 0 := by simpa using hne
      have := ih hj hne'
      simp only [List.set, countNZ_cons]
      omega

/-- Overwriting a non-zero cell with a non-zero value keeps the count. -/
lemma countNZ_set_nonzero (l : List Nat) {i : Nat} (h : i < l.length) (a : Nat)
    (hne : l.getD i 0 ≠ 0) (ha : a ≠ 0) : countNZ (l.set i a) = countNZ l := by
  induction l generalizing i with
  | nil => simp at h
  | cons x tl ih =>
    cases i with
    | zero =>
      have hx : x ≠ 0 := by simpa using hne
      simp only [List.set, countNZ_cons]
      rw [if_pos ha, if_pos hx]
    | succ j =>
      have hj : j < tl.length := by simpa using h
      have hne' : tl.getD j 0 ≠ 0 := by simpa using hne
      have := ih hj hne'
      simp only [List.set, countNZ_cons]
      omega

/-- Invariance of a predicate under a left fold. -/
lemma foldl_inv {α β : Type} (P : α → Prop) (f : α → β → α) (l : List β) (a : α)
    (h0 : P a) (hstep : ∀ b ∈ l, ∀ x, P x → P (f x b)) : P (l.foldl f a) := by
  induction l generalizing a with
  | nil => exact h0
  | cons b tl ih =>
    exact ih (f a b) (hstep b (by simp) a h0)
      (fun b' hb' x hx => hstep b' (by simp [hb']) x hx)

/-- Sum of a pointwise sum of two maps. -/
lemma sum_map_add {α : Type} (l : List α) (f h : α → Nat) :
    (l.map fun x => f x + h x).sum = (l.map f).sum + (l.map h).sum := by
  induction l with
  | nil => rfl
  | cons x tl ih => simp only [List.map_cons, List.sum_cons, ih]; omega

/-- Swap the order of a double list sum. -/
lemma sum_swap (l : List Nat) (A : List (List Nat)) (f : List Nat → Nat → Nat) :
    (l.map fun c => (A.map fun row => f row c).sum).sum
      = (A.map fun row => (l.map (f row)).sum).sum := by
  induction A with
  | nil => simp
  | cons row tl ih =>
    simp only [List.map_cons, List.sum_cons]
    rw [← ih, ← sum_map_add]

/-- A list maps to itself when the function fixes each element. -/
lemma map_eq_self_of {α : Type} {l : List α} {f : α → α} (h : ∀ a ∈ l, f a = a) :
    l.map f = l := by
  rw [List.map_congr_left (g := id) h, List.map_id]

/-- Conversely, if a map returns the list itself, the function fixes each
element. -/
lemma of_map_eq_self {α : Type} {l : List α} {f : α → α} (h : l.map f = l) :
    ∀ a ∈ l, f a = a := by
  induction l with
  | nil => simp
  | cons x tl ih =>
    intro a ha
    rw [List.map_cons] at h
    injection h with h1 h2
    rcases List.mem_cons.mp ha with rfl | ha'
    · exact h1
    · exact ih h2 a ha'

/-- An in-range getD is an element of the list. -/
lemma getD_mem {α : Type} (l : List α) (d : α) {i : Nat} (h : i < l.length) :
    l.getD i d ∈ l := by
  rw [List.getD_eq_getElem l d h]
  exact List.getElem_mem h

/-! ### Properties of _compress_line -/

lemma compress_apply (l : List Nat) : _compress_line l =
    l.filter (fun v => v != 0) ++
      List.replicate (l.length - (l.filter (fun v => v != 0)).length) 0 := rfl

lemma compress_length (l : List Nat) : (_compress_line l).length = l.length := by
  have := List.length_filter_le (fun v => v != 0) l
  simp only [compress_apply, List.length_append, List.length_replicate]
  omega

lemma filter_compress (l : List Nat) :
    (_compress_line l).filter (fun v => v != 0) = l.filter (fun v => v != 0) := by
  rw [compress_apply, List.filter_append]
  have h1 : (l.filter (fun v => v != 0)).filter (fun v => v != 0)
      = l.filter (fun v => v != 0) :=
    List.filter_eq_self.mpr (fun a ha => (List.mem_filter.mp ha).2)
  have h2 : (List.replicate (l.length - (l.filter (fun v => v != 0)).length) 0).filter
      (fun v => v != 0) = [] := by
    apply List.filter_eq_nil_iff.mpr
    intro a ha
    simp [(List.mem_replicate.mp ha).2]
  rw [h1, h2, List.append_nil]

lemma countNZ_compress (l : List Nat) : countNZ (_compress_line l) = countNZ l := by
  unfold countNZ
  rw [filter_compress]

lemma sum_filter_nz (l : List Nat) : (l.filter (fun v => v != 0)).sum = l.sum := by
  induction l with
  | nil => rfl
  | cons x tl ih =>
    by_cases hx : x = 0
    · simp [List.filter_cons, hx, ih]
    · simp [List.filter_cons, hx, ih]

lemma compress_sum (l : List Nat) : (_compress_line l).sum = l.sum := by
  simp [compress_apply, List.sum_append, List.sum_replicate, sum_filter_nz]

lemma mem_compress (l : List Nat) {v : Nat} (h : v ∈ _compress_line l) :
    v ∈ l ∨ v = 0 := by
  rw [compress_apply] at h
  rcases List.mem_append.mp h with h' | h'
  · exact Or.inl (List.mem_filter.mp h').1
  · exact Or.inr (List.mem_replicate.mp h').2

lemma compress_of_not_mem (l : List Nat) (h : 0 ∉ l) : _compress_line l = l := by
  have hf : l.filter (fun v => v != 0) = l := by
    apply List.filter_eq_self.mpr
    intro a ha
    simp only [bne_iff_ne, ne_eq, decide_eq_true_eq]
    intro h0
    exact h (h0 ▸ ha)
  rw [compress_apply, hf]
  simp

lemma compress_idem (l : List Nat) :
    _compress_line (_compress_line l) = _compress_line l := by
  conv_lhs => rw [compress_apply (_compress_line l)]
  rw [filter_compress, compress_length, ← compress_apply]

lemma zero_mem_of_compress_ne (l : List Nat) (h : _compress_line l ≠ l) : 0 ∈ l := by
  by_contra h0
  exact h (compress_of_not_mem l h0)

/-! ### Properties of the merge scan of _merge_line -/

lemma merge_line_eq (line : List Nat) :
    _merge_line line = (_compress_line (mergePass (_compress_line line)).1,
      (mergePass (_compress_line line)).2) := rfl

/-- Main invariant of the merge scan: length and sum are preserved, and
either nothing merged (gained = 0, line unchanged) or something merged
(gained > 0 and strictly fewer non-zero entries). -/
lemma mergePass_inv (c0 : List Nat) :
    (mergePass c0).1.length = c0.length ∧
    (mergePass c0).1.sum = c0.sum ∧
    (((mergePass c0).2 = 0 ∧ (mergePass c0).1 = c0) ∨
      (0 < (mergePass c0).2 ∧ countNZ (mergePass c0).1 < countNZ c0)) := by
  refine foldl_inv (fun p : List Nat × Nat =>
      p.1.length = c0.length ∧ p.1.sum = c0.sum ∧
      ((p.2 = 0 ∧ p.1 = c0) ∨ (0 < p.2 ∧ countNZ p.1 < countNZ c0)))
    mergeStep (List.range (c0.length - 1)) (c0, 0)
    ⟨rfl, rfl, Or.inl ⟨rfl, rfl⟩⟩ ?_
  intro i hi p hp
  have hi' : i < c0.length - 1 := List.mem_range.mp hi
  obtain ⟨hlen, hsum, hdisj⟩ := hp
  simp only [mergeStep]
  by_cases hc : p.1.getD i 0 ≠ 0 ∧ p.1.getD i 0 = p.1.getD (i + 1) 0
  · rw [if_pos hc]
    obtain ⟨hv, heq⟩ := hc
    set v := p.1.getD i 0 with hvdef
    have hiL : i < p.1.length := by omega
    have hi1L : i + 1 < p.1.length := by omega
    have hgd1 : (p.1.set i (2 * v)).getD (i + 1) 0 = v := by
      rw [getD_set_ne _ (by omega)]
      exact heq.symm
    dsimp only
    refine ⟨by simp [hlen], ?_, ?_⟩
    · -- sum preserved by a merge
      have e1 := sum_set_add p.1 i (2 * v) hiL
      have e2 := sum_set_add (p.1.set i (2 * v)) (i + 1) 0 (by simp; omega)
      rw [hgd1] at e2
      omega
    · -- merge happened: positive gain, count decreases
      right
      have h2v : (2 : Nat) * v ≠ 0 := by omega
      have c1 := countNZ_set_nonzero p.1 hiL (2 * v) hv h2v
      have c2 := countNZ_set_zero (p.1.set i (2 * v)) (i := i + 1) (by simp; omega)
        (by rw [hgd1]; exact hv)
      have hle : countNZ p.1 ≤ countNZ c0 := by
        rcases hdisj with ⟨-, hfix⟩ | ⟨-, hlt⟩
        · rw [hfix]
        · omega
      exact ⟨by omega, by omega⟩
  · rw [if_neg hc]
    exact ⟨hlen, hsum, hdisj⟩

/-! ### Derived properties of _merge_line -/

lemma merge_line_length (l : List Nat) : (_merge_line l).1.length = l.length := by
  rw [merge_line_eq]
  dsimp only
  rw [compress_length, (mergePass_inv (_compress_line l)).1, compress_length]

lemma merge_line_sum (l : List Nat) : (_merge_line l).1.sum = l.sum := by
  rw [merge_line_eq]
  dsimp only
  rw [compress_sum, (mergePass_inv (_compress_line l)).2.1, compress_sum]

lemma merge_line_compressed (l : List Nat) :
    _compress_line (_merge_line l).1 = (_merge_line l).1 := by
  rw [merge_line_eq]
  exact compress_idem _

lemma merge_line_countNZ_le (l : List Nat) : countNZ (_merge_line l).1 ≤ countNZ l := by
  rw [merge_line_eq]
  dsimp only
  rw [countNZ_compress]
  rcases (mergePass_inv (_compress_line l)).2.2 with ⟨-, hfix⟩ | ⟨-, hlt⟩
  · rw [hfix, countNZ_compress]
  · rw [countNZ_compress] at hlt
    omega

/-- A row whose merged line equals the row itself gained no score:
merging strictly decreases the number of non-zero entries. -/
lemma merge_line_gain_zero (l : List Nat) (h : (_merge_line l).1 = l) :
    (_merge_line l).2 = 0 := by
  rcases (mergePass_inv (_compress_line l)).2.2 with ⟨h0, -⟩ | ⟨-, hlt⟩
  · rw [merge_line_eq]
    exact h0
  · exfalso
    have hc : countNZ (_merge_line l).1 = countNZ l := by rw [h]
    rw [merge_line_eq] at hc
    dsimp only at hc
    rw [countNZ_compress] at hc
    rw [countNZ_compress] at hlt
    omega

/-- A row changed by merging contains an empty cell afterwards. -/
lemma merge_line_zero_mem (l : List Nat) (h : (_merge_line l).1 ≠ l) :
    0 ∈ (_merge_line l).1 := by
  rw [zero_mem_iff_countNZ, merge_line_length]
  rcases (mergePass_inv (_compress_line l)).2.2 with ⟨-, hfix⟩ | ⟨-, hlt⟩
  · -- no merge: the change is due to compression, so l had a zero
    have hml : (_merge_line l).1 = _compress_line l := by
      rw [merge_line_eq]
      dsimp only
      rw [hfix, compress_idem]
    have hzl : 0 ∈ l := by
      apply zero_mem_of_compress_ne
      intro hcl
      exact h (by rw [hml, hcl])
    have := (zero_mem_iff_countNZ l).mp hzl
    have hcc : countNZ (_merge_line l).1 = countNZ l := by
      rw [hml, countNZ_compress]
    omega
  · -- a merge happened: strictly fewer non-zero entries than cells
    have h1 := merge_line_countNZ_le l
    have h2 : countNZ (_merge_line l).1 < countNZ l := by
      rw [merge_line_eq]
      dsimp only
      rw [countNZ_compress]
      rw [countNZ_compress] at hlt
      exact hlt
    have h3 := countNZ_le_length l
    omega

lemma PTile_zero : PTile 0 := Or.inl rfl

lemma PTile_two : PTile 2 := Or.inr ⟨0, rfl⟩

lemma PTile_four : PTile 4 := Or.inr ⟨1, rfl⟩

lemma PTile_double {v : Nat} (h : PTile v) (hv : v ≠ 0) : PTile (2 * v) := by
  rcases h with h0 | ⟨k, hk⟩
  · exact absurd h0 hv
  · exact Or.inr ⟨k + 1, by rw [hk]; ring⟩

lemma compress_tiles (l : List Nat) (h : ∀ v ∈ l, PTile v) :
    ∀ v ∈ _compress_line l, PTile v := by
  intro v hv
  rcases mem_compress l hv with h' | h'
  · exact h v h'
  · exact h' ▸ PTile_zero

lemma mergePass_tiles (c0 : List Nat) (h : ∀ v ∈ c0, PTile v) :
    ∀ v ∈ (mergePass c0).1, PTile v := by
  have main := foldl_inv (fun p : List Nat × Nat => ∀ v ∈ p.1, PTile v)
    mergeStep (List.range (c0.length - 1)) (c0, 0) h ?_
  · exact main
  intro i _ p hp
  simp only [mergeStep]
  by_cases hc : p.1.getD i 0 ≠ 0 ∧ p.1.getD i 0 = p.1.getD (i + 1) 0
  · rw [if_pos hc]
    dsimp only
    intro v hv
    rcases List.mem_or_eq_of_mem_set hv with hv' | hv'
    · rcases List.mem_or_eq_of_mem_set hv' with hv'' | hv''
      · exact hp v hv''
      · subst hv''
        have hiL : i < p.1.length := by
          by_contra hout
          exact hc.1 (getD_of_le _ _ (Nat.le_of_not_lt hout))
        exact PTile_double (hp _ (getD_mem p.1 0 hiL)) hc.1
    · exact hv' ▸ PTile_zero
  · rw [if_neg hc]
    exact hp

lemma merge_line_tiles (l : List Nat) (h : ∀ v ∈ l, PTile v) :
    ∀ v ∈ (_merge_line l).1, PTile v := by
  rw [merge_line_eq]
  exact compress_tiles _ (mergePass_tiles _ (compress_tiles _ h))

/-! ### Rows with no adjacent equal non-zero pair are merge fixed points -/

lemma mergePass_fixed (c0 : List Nat) (h : noMergeRow c0) : mergePass c0 = (c0, 0) := by
  refine foldl_inv (fun p : List Nat × Nat => p = (c0, 0)) mergeStep
    (List.range (c0.length - 1)) (c0, 0) rfl ?_
  intro i hi p hp
  subst hp
  have hi' : i < c0.length - 1 := List.mem_range.mp hi
  simp only [mergeStep]
  rcases h i hi' with h0 | h0
  · rw [if_neg]
    dsimp only
    rw [h0]
    simp
  · rw [if_neg]
    dsimp only
    intro hc
    exact h0 hc.2

/-- A compressed, merge-free line is a fixed point of _merge_line. -/
lemma merge_line_fixed (l : List Nat) (hc : _compress_line l = l)
    (hm : noMergeRow l) : _merge_line l = (l, 0) := by
  rw [merge_line_eq, hc, mergePass_fixed l hm]
  dsimp only
  rw [hc]

/-! ### Characterization of the move_left row loop -/

lemma moveRowsStep_changed (row : List Nat) (acc : List (List Nat)) (m : Bool)
    (t : Nat) (h : (_merge_line row).1 ≠ row) :
    moveRowsStep (acc, m, t) row
      = (acc ++ [(_merge_line row).1], true, t + (_merge_line row).2) := by
  simp only [moveRowsStep]
  rw [if_pos h]

lemma moveRowsStep_unchanged (row : List Nat) (acc : List (List Nat)) (m : Bool)
    (t : Nat) (h : (_merge_line row).1 = row) :
    moveRowsStep (acc, m, t) row = (acc ++ [row], m, t) := by
  simp only [moveRowsStep]
  rw [if_neg (by simp [h])]

lemma foldl_moveRowsStep (rows : List (List Nat)) :
    ∀ (acc : List (List Nat)) (m : Bool) (t : Nat),
    rows.foldl moveRowsStep (acc, m, t) =
      (acc ++ rows.map mergeRow,
        m || rows.any fun r => decide (mergeRow r ≠ r),
        t + (rows.map fun r => if mergeRow r ≠ r then (_merge_line r).2 else 0).sum) := by
  induction rows with
  | nil => intro acc m t; simp
  | cons row tl ih =>
    intro acc m t
    simp only [List.foldl_cons, List.map_cons, List.any_cons, List.sum_cons]
    by_cases hc : mergeRow row ≠ row
    · rw [moveRowsStep_changed row acc m t hc, ih]
      simp only [Prod.mk.injEq]
      refine ⟨?_, ?_, ?_⟩
      · simp [List.append_assoc, mergeRow]
      · simp [hc]
      · rw [if_pos hc]
        omega
    · push_neg at hc
      rw [moveRowsStep_unchanged row acc m t hc, ih]
      simp only [Prod.mk.injEq]
      refine ⟨?_, ?_, ?_⟩
      · rw [List.append_assoc, show mergeRow row = row from hc]
        rfl
      · simp [hc]
      · rw [if_neg (by simp [hc])]
        omega

/-- The moved flag computed by the loop is on iff some row changed, i.e.
iff the merged grid differs from the grid. -/
lemma any_changed_iff (A : List (List Nat)) :
    ((A.any fun r => decide (mergeRow r ≠ r)) = true) ↔ mergedL A ≠ A := by
  rw [List.any_eq_true]
  constructor
  · rintro ⟨r, hr, hne⟩ heq
    exact (by simpa using hne : mergeRow r ≠ r) (of_map_eq_self heq r hr)
  · intro hne
    by_contra hall
    push_neg at hall
    apply hne
    apply map_eq_self_of
    intro a ha
    have := hall a ha
    simpa using this

/-- The gain total accumulated over changed rows equals the gain total over
all rows, since unchanged rows gain nothing. -/
lemma gains_if_eq (A : List (List Nat)) :
    (A.map fun r => if mergeRow r ≠ r then (_merge_line r).2 else 0).sum = gainsL A := by
  unfold gainsL
  congr 1
  apply List.map_congr_left
  intro r _
  by_cases hc : mergeRow r ≠ r
  · rw [if_pos hc]
  · rw [if_neg hc]
    push_neg at hc
    exact (merge_line_gain_zero r hc).symm

/-- Closed form of move_left: if the merged grid differs from the grid,
install it, add the total gain and spawn; otherwise the state is unchanged
and no spawn happens (the result does not depend on the random draws). -/
lemma move_left_eq (g : Game) (idx : Nat) (four : Bool) :
    move_left g idx four =
      if mergedL g.grid = g.grid then (g, false)
      else (spawn_random
        { g with grid := mergedL g.grid, score := g.score + gainsL g.grid }
        idx four, true) := by
  unfold move_left
  rw [foldl_moveRowsStep g.grid [] false 0]
  dsimp only
  rw [List.nil_append, Bool.false_or, Nat.zero_add, gains_if_eq]
  by_cases hm : mergedL g.grid = g.grid
  · rw [if_pos hm]
    have hb : (g.grid.any fun r => decide (mergeRow r ≠ r)) = false := by
      by_contra hb
      have := (any_changed_iff g.grid).mp (by simpa using hb)
      exact this hm
    rw [hb]
    simp only [Bool.false_eq_true, if_false]
    have : mergedL g.grid = g.grid := hm
    rw [show (g.grid.map mergeRow) = g.grid from this]
  · rw [if_neg hm]
    have hb : (g.grid.any fun r => decide (mergeRow r ≠ r)) = true :=
      (any_changed_iff g.grid).mpr hm
    rw [hb]
    simp only [if_true]
    rfl

/-! ### Spawn lemmas -/

lemma spawn_size (g : Game) (idx : Nat) (four : Bool) :
    (spawn_random g idx four).size = g.size := by
  unfold spawn_random
  by_cases h : emptyCells g = []
  · rw [if_pos h]
  · rw [if_neg h]

lemma spawn_score (g : Game) (idx : Nat) (four : Bool) :
    (spawn_random g idx four).score = g.score := by
  unfold spawn_random
  by_cases h : emptyCells g = []
  · rw [if_pos h]
  · rw [if_neg h]

/-- Membership in the empty-cell list means: in-range coordinates of a cell
holding 0. -/
lemma mem_emptyCells (g : Game) (rc : Nat × Nat) :
    rc ∈ emptyCells g ↔ rc.1 < g.size ∧ rc.2 < g.size ∧ cellG g.grid rc.1 rc.2 = 0 := by
  unfold emptyCells
  rw [List.mem_filter]
  constructor
  · rintro ⟨hmem, hz⟩
    obtain ⟨r, hr, hc⟩ := List.mem_flatMap.mp hmem
    obtain ⟨c, hc', hrc⟩ := List.mem_map.mp hc
    refine ⟨?_, ?_, by simpa using hz⟩
    · rw [← hrc]; exact List.mem_range.mp hr
    · rw [← hrc]; exact List.mem_range.mp hc'
  · rintro ⟨h1, h2, h3⟩
    refine ⟨List.mem_flatMap.mpr ⟨rc.1, List.mem_range.mpr h1,
      List.mem_map.mpr ⟨rc.2, List.mem_range.mpr h2, rfl⟩⟩, by simpa using h3⟩

/-- When empty cells exist, spawn_random writes a 4 (or a 2) into one of
them and changes nothing else. -/
lemma spawn_spec (g : Game) (idx : Nat) (four : Bool) (hne : emptyCells g ≠ []) :
    ∃ r c, r < g.size ∧ c < g.size ∧ cellG g.grid r c = 0 ∧
      (spawn_random g idx four).grid = setCell g.grid r c (if four then 4 else 2) := by
  have hlen : 0 < (emptyCells g).length := List.length_pos.mpr hne
  have hidx : idx % (emptyCells g).length < (emptyCells g).length := Nat.mod_lt _ hlen
  have hmem : (emptyCells g).getD (idx % (emptyCells g).length) (0, 0) ∈ emptyCells g := by
    rw [List.getD_eq_getElem _ _ hidx]
    exact List.getElem_mem hidx
  obtain ⟨h1, h2, h3⟩ := (mem_emptyCells g _).mp hmem
  refine ⟨_, _, h1, h2, h3, ?_⟩
  unfold spawn_random
  rw [if_neg hne]

/-! ### Shapes and the structural transforms -/

lemma ShapeN_mergedL {A : List (List Nat)} {n : Nat} (h : ShapeN A n) :
    ShapeN (mergedL A) n := by
  obtain ⟨h1, h2⟩ := h
  constructor
  · simp [mergedL, h1]
  · intro row hrow
    obtain ⟨r, hr, rfl⟩ := List.mem_map.mp hrow
    rw [mergeRow, merge_line_length]
    exact h2 r hr

lemma ShapeN_rev {A : List (List Nat)} {n : Nat} (h : ShapeN A n) :
    ShapeN (_reverse_grid A) n := by
  obtain ⟨h1, h2⟩ := h
  constructor
  · simp [_reverse_grid, h1]
  · intro row hrow
    obtain ⟨r, hr, rfl⟩ := List.mem_map.mp hrow
    simpa using h2 r hr

lemma rev_rev (A : List (List Nat)) : _reverse_grid (_reverse_grid A) = A := by
  unfold _reverse_grid
  rw [List.map_map]
  exact map_eq_self_of (fun a _ => by simp)

lemma rev_inj {A B : List (List Nat)} (h : _reverse_grid A = _reverse_grid B) :
    A = B := by
  have := congrArg _reverse_grid h
  rwa [rev_rev, rev_rev] at this

lemma headD_length {A : List (List Nat)} {n : Nat} (h : ShapeN A n) (hA : A ≠ []) :
    (A.headD []).length = n := by
  cases A with
  | nil => exact absurd rfl hA
  | cons r tl => exact h.2 r (by simp)

lemma ShapeN_T {A : List (List Nat)} {n : Nat} (h : ShapeN A n) :
    ShapeN (_transpose_grid A) n := by
  by_cases hA : A = []
  · subst hA
    have h0 : n = 0 := by simpa using h.1.symm
    subst h0
    exact ⟨by simp [_transpose_grid], by simp [_transpose_grid]⟩
  · constructor
    · show ((List.range (A.headD []).length).map _).length = n
      rw [List.length_map, List.length_range, headD_length h hA]
    · intro row hrow
      obtain ⟨c, _, rfl⟩ := List.mem_map.mp ((by simpa [_transpose_grid] using hrow :
        row ∈ (List.range (A.headD []).length).map fun c => A.map fun r => r.getD c 0))
      simp [h.1]

lemma cellG_rev {A : List (List Nat)} {n : Nat} (h : ShapeN A n) (r c : Nat)
    (hc : c < n) : cellG (_reverse_grid A) r c = cellG A r (n - 1 - c) := by
  unfold cellG _reverse_grid
  by_cases hr : r < A.length
  · have hrow : (A.map List.reverse).getD r [] = (A.getD r []).reverse := by
      rw [List.getD_eq_getElem _ _ (by simpa using hr), List.getD_eq_getElem _ _ hr,
        List.getElem_map]
    rw [hrow]
    have hrowlen : (A.getD r []).length = n := h.2 _ (getD_mem A [] hr)
    rw [getD_reverse _ (by rw [hrowlen]; exact hc) 0, hrowlen]
  · rw [getD_of_le (A.map List.reverse) []
        (by simp only [List.length_map]; exact Nat.le_of_not_lt hr),
      getD_of_le A [] (Nat.le_of_not_lt hr)]
    simp

lemma cellG_T {A : List (List Nat)} {n : Nat} (h : ShapeN A n) (r c : Nat) :
    cellG (_transpose_grid A) r c = cellG A c r := by
  by_cases hA : A = []
  · subst hA
    simp [cellG, _transpose_grid]
  · have hhd : (A.headD []).length = n := headD_length h hA
    unfold _transpose_grid cellG
    by_cases hr : r < n
    · have hr' : r < ((List.range (A.headD []).length).map fun c' =>
          A.map fun row => row.getD c' 0).length := by
        rw [List.length_map, List.length_range, hhd]
        exact hr
      have hrow : ((List.range (A.headD []).length).map fun c' =>
          A.map fun row => row.getD c' 0).getD r [] = A.map fun row => row.getD r 0 := by
        rw [List.getD_eq_getElem _ _ hr', List.getElem_map, List.getElem_range]
      rw [hrow]
      by_cases hcA : c < A.length
      · rw [List.getD_eq_getElem _ _ (by simpa using hcA), List.getElem_map,
          List.getD_eq_getElem A [] hcA]
      · rw [getD_of_le (A.map fun row => row.getD r 0) 0
            (by simp only [List.length_map]; exact Nat.le_of_not_lt hcA),
          getD_of_le A [] (Nat.le_of_not_lt hcA)]
        simp
    · have hTlen : ((List.range (A.headD []).length).map fun c' =>
          A.map fun row => row.getD c' 0).length = n := by
        rw [List.length_map, List.length_range, hhd]
      rw [getD_of_le _ [] (by rw [hTlen]; exact Nat.le_of_not_lt hr)]
      simp only [List.getD_nil]
      by_cases hcA : c < A.length
      · have hrl : (A.getD c []).length = n := h.2 _ (getD_mem A [] hcA)
        rw [getD_of_le _ _ (by rw [hrl]; exact Nat.le_of_not_lt hr)]
      · rw [getD_of_le A [] (Nat.le_of_not_lt hcA)]
        simp

lemma grid_ext {A B : List (List Nat)} {n : Nat} (hA : ShapeN A n) (hB : ShapeN B n)
    (h : ∀ r c, cellG A r c = cellG B r c) : A = B := by
  apply ext_getD ([] : List Nat) (by rw [hA.1, hB.1])
  intro r hr
  have hrA : A.getD r [] ∈ A := getD_mem A [] hr
  have hrB : B.getD r [] ∈ B := getD_mem B [] (by rw [hB.1, ← hA.1]; exact hr)
  apply ext_getD (0 : Nat) (by rw [hA.2 _ hrA, hB.2 _ hrB])
  intro c _
  exact h r c

lemma T_T {A : List (List Nat)} {n : Nat} (h : ShapeN A n) :
    _transpose_grid (_transpose_grid A) = A := by
  have h1 := ShapeN_T h
  have h2 := ShapeN_T h1
  apply grid_ext h2 h
  intro r c
  rw [cellG_T h1, cellG_T h]

lemma T_inj {A B : List (List Nat)} {n : Nat} (hA : ShapeN A n) (hB : ShapeN B n)
    (h : _transpose_grid A = _transpose_grid B) : A = B := by
  have := congrArg _transpose_grid h
  rwa [T_T hA, T_T hB] at this

lemma ShapeN_setCell {A : List (List Nat)} {n : Nat} (h : ShapeN A n) (r c v : Nat) :
    ShapeN (setCell A r c v) n := by
  by_cases hrL : r < A.length
  · constructor
    · simp [setCell, h.1]
    · intro row hrow
      rcases List.mem_or_eq_of_mem_set hrow with h' | h'
      · exact h.2 row h'
      · subst h'
        rw [List.length_set]
        exact h.2 _ (getD_mem A [] hrL)
  · unfold setCell
    rw [List.set_eq_of_length_le (Nat.le_of_not_lt hrL)]
    exact h

lemma cellG_setCell_self {A : List (List Nat)} {n : Nat} (h : ShapeN A n)
    {r c : Nat} (hr : r < n) (hc : c < n) (v : Nat) :
    cellG (setCell A r c v) r c = v := by
  unfold cellG setCell
  rw [getD_set_self A (by rw [h.1]; exact hr)]
  rw [getD_set_self _ (by rw [h.2 _ (getD_mem A [] (h.1 ▸ hr))]; exact hc)]

lemma cellG_setCell_ne (A : List (List Nat)) (r c v r' c' : Nat)
    (h : ¬(r' = r ∧ c' = c)) : cellG (setCell A r c v) r' c' = cellG A r' c' := by
  unfold cellG setCell
  by_cases hr : r' = r
  · subst hr
    have hc : c ≠ c' := fun he => h ⟨rfl, he.symm⟩
    by_cases hrL : r' < A.length
    · rw [getD_set_self A hrL]
      exact getD_set_ne _ hc _ _
    · rw [List.set_eq_of_length_le (Nat.le_of_not_lt hrL)]
  · rw [getD_set_ne A (fun he => hr he.symm)]

/-! ### Grid sums -/

lemma gridSum_rev (A : List (List Nat)) : gridSum (_reverse_grid A) = gridSum A := by
  unfold gridSum _reverse_grid
  rw [List.map_map]
  congr 1
  apply List.map_congr_left
  intro a _
  exact List.sum_reverse a

lemma gridSum_mergedL (A : List (List Nat)) : gridSum (mergedL A) = gridSum A := by
  unfold gridSum mergedL
  rw [List.map_map]
  congr 1
  apply List.map_congr_left
  intro a _
  exact merge_line_sum a

lemma gridSum_T {A : List (List Nat)} {n : Nat} (h : ShapeN A n) :
    gridSum (_transpose_grid A) = gridSum A := by
  by_cases hA : A = []
  · subst hA
    rfl
  · have hhd : (A.headD []).length = n := headD_length h hA
    unfold gridSum _transpose_grid
    rw [List.map_map, hhd]
    have e1 : ((List.range n).map (List.sum ∘ fun c => A.map fun row => row.getD c 0)).sum
        = ((List.range n).map fun c => (A.map fun row => row.getD c 0).sum).sum := rfl
    rw [e1, sum_swap]
    congr 1
    apply List.map_congr_left
    intro row hrow
    have hlen : row.length = n := h.2 row hrow
    rw [← hlen, range_map_getD row]

/-! ### The effect of one spawn on a grid -/

lemma cellG_oob {A : List (List Nat)} {n : Nat} (h : ShapeN A n) {r c : Nat}
    (hrc : n ≤ r ∨ n ≤ c) : cellG A r c = 0 := by
  unfold cellG
  by_cases hr : r < A.length
  · have hlen : (A.getD r []).length = n := h.2 _ (getD_mem A [] hr)
    rcases hrc with h' | h'
    · exact absurd hr (by rw [h.1]; omega)
    · rw [getD_of_le _ 0 (by omega)]
  · rw [getD_of_le A [] (Nat.le_of_not_lt hr)]
    simp

lemma SpawnDiff_setCell {A : List (List Nat)} {n : Nat} (h : ShapeN A n)
    {r c : Nat} (hr : r < n) (hc : c < n) (hz : cellG A r c = 0) (four : Bool) :
    SpawnDiff A (setCell A r c (if four then 4 else 2)) n four := by
  refine ⟨r, c, hr, hc, hz, ?_, ?_⟩
  · exact cellG_setCell_self h hr hc _
  · intro r' c' hne
    exact cellG_setCell_ne A r c _ r' c' hne

lemma SpawnDiff_rev {old new : List (List Nat)} {n : Nat} {four : Bool}
    (hold : ShapeN old n) (hnew : ShapeN new n) (h : SpawnDiff old new n four) :
    SpawnDiff (_reverse_grid old) (_reverse_grid new) n four := by
  obtain ⟨r, c, hr, hc, hz, hv, hrest⟩ := h
  refine ⟨r, n - 1 - c, hr, by omega, ?_, ?_, ?_⟩
  · rw [cellG_rev hold r (n - 1 - c) (by omega),
      (by omega : n - 1 - (n - 1 - c) = c)]
    exact hz
  · rw [cellG_rev hnew r (n - 1 - c) (by omega),
      (by omega : n - 1 - (n - 1 - c) = c)]
    exact hv
  · intro r' c' hne
    by_cases hc' : c' < n
    · rw [cellG_rev hnew r' c' hc', cellG_rev hold r' c' hc']
      apply hrest
      rintro ⟨rfl, hcc⟩
      exact hne ⟨rfl, by omega⟩
    · rw [cellG_oob (ShapeN_rev hnew) (Or.inr (Nat.le_of_not_lt hc')),
        cellG_oob (ShapeN_rev hold) (Or.inr (Nat.le_of_not_lt hc'))]

lemma SpawnDiff_T {old new : List (List Nat)} {n : Nat} {four : Bool}
    (hold : ShapeN old n) (hnew : ShapeN new n) (h : SpawnDiff old new n four) :
    SpawnDiff (_transpose_grid old) (_transpose_grid new) n four := by
  obtain ⟨r, c, hr, hc, hz, hv, hrest⟩ := h
  refine ⟨c, r, hc, hr, ?_, ?_, ?_⟩
  · rw [cellG_T hold]
    exact hz
  · rw [cellG_T hnew]
    exact hv
  · intro r' c' hne
    rw [cellG_T hnew, cellG_T hold]
    apply hrest
    rintro ⟨h1, h2⟩
    exact hne ⟨h2, h1⟩

/-! ### A changed grid leaves an empty cell for the spawner -/

lemma zero_cell_of_changed {A : List (List Nat)} {n : Nat} (hA : ShapeN A n)
    (hm : mergedL A ≠ A) : ∃ r c, r < n ∧ c < n ∧ cellG (mergedL A) r c = 0 := by
  have hex : ∃ row ∈ A, mergeRow row ≠ row := by
    by_contra hall
    push_neg at hall
    exact hm (map_eq_self_of hall)
  obtain ⟨row, hrow, hne⟩ := hex
  obtain ⟨r, hrL, hrEq⟩ := List.mem_iff_getElem.mp hrow
  have hz : 0 ∈ mergeRow row := merge_line_zero_mem row hne
  obtain ⟨c, hcL, hcEq⟩ := List.mem_iff_getElem.mp hz
  have hrlen : row.length = n := hA.2 row hrow
  have hmlen : (mergeRow row).length = n := by
    rw [mergeRow, merge_line_length, hrlen]
  refine ⟨r, c, by rw [← hA.1]; exact hrL, by omega, ?_⟩
  unfold cellG mergedL
  rw [List.getD_eq_getElem (A.map mergeRow) [] (by simpa using hrL),
    List.getElem_map, hrEq, List.getD_eq_getElem (mergeRow row) 0 hcL, hcEq]

lemma emptyCells_ne_nil {s : Game}
    (hz : ∃ r c, r < s.size ∧ c < s.size ∧ cellG s.grid r c = 0) :
    emptyCells s ≠ [] := by
  obtain ⟨r, c, h1, h2, h3⟩ := hz
  exact List.ne_nil_of_mem ((mem_emptyCells s (r, c)).mpr ⟨h1, h2, h3⟩)

/-! ### Full description of each directional move -/

lemma left_spec (g : Game) (idx : Nat) (four : Bool) (hWF : WF g) :
    ((move_left g idx four).2 = true ↔ mergedL g.grid ≠ g.grid) ∧
    ((move_left g idx four).2 = true →
      (move_left g idx four).1.size = g.size ∧
      (move_left g idx four).1.score = g.score + gainsL g.grid ∧
      SpawnDiff (mergedL g.grid) (move_left g idx four).1.grid g.size four ∧
      ShapeN (move_left g idx four).1.grid g.size) := by
  by_cases hm : mergedL g.grid = g.grid
  · rw [move_left_eq, if_pos hm]
    simp [hm]
  · rw [move_left_eq, if_neg hm]
    dsimp only
    refine ⟨by simp [hm], fun _ => ?_⟩
    set st : Game := { g with grid := mergedL g.grid, score := g.score + gainsL g.grid }
      with hst
    have hstWF : WF st := ShapeN_mergedL hWF
    have hne : emptyCells st ≠ [] :=
      emptyCells_ne_nil (s := st) (zero_cell_of_changed hWF hm)
    obtain ⟨r, c, hr, hc, hz, hgrid⟩ := spawn_spec st idx four hne
    refine ⟨spawn_size st idx four, ?_, ?_, ?_⟩
    · rw [spawn_score]
    · rw [hgrid]
      exact SpawnDiff_setCell hstWF hr hc hz four
    · rw [hgrid]
      exact ShapeN_setCell hstWF r c _

lemma move_left_unchanged (g : Game) (idx : Nat) (four : Bool)
    (hm : mergedL g.grid = g.grid) : move_left g idx four = (g, false) := by
  rw [move_left_eq, if_pos hm]

lemma move_right_def (g : Game) (idx : Nat) (four : Bool) :
    move_right g idx four =
      ({ (move_left { g with grid := _reverse_grid g.grid } idx four).1 with
          grid := _reverse_grid
            (move_left { g with grid := _reverse_grid g.grid } idx four).1.grid },
        (move_left { g with grid := _reverse_grid g.grid } idx four).2) := rfl

lemma move_up_def (g : Game) (idx : Nat) (four : Bool) :
    move_up g idx four =
      ({ (move_left { g with grid := _transpose_grid g.grid } idx four).1 with
          grid := _transpose_grid
            (move_left { g with grid := _transpose_grid g.grid } idx four).1.grid },
        (move_left { g with grid := _transpose_grid g.grid } idx four).2) := rfl

lemma move_down_def (g : Game) (idx : Nat) (four : Bool) :
    move_down g idx four =
      ({ (move_right { g with grid := _transpose_grid g.grid } idx four).1 with
          grid := _transpose_grid
            (move_right { g with grid := _transpose_grid g.grid } idx four).1.grid },
        (move_right { g with grid := _transpose_grid g.grid } idx four).2) := rfl

lemma ShapeN_mergedR {A : List (List Nat)} {n : Nat} (h : ShapeN A n) :
    ShapeN (mergedR A) n := ShapeN_rev (ShapeN_mergedL (ShapeN_rev h))

lemma ShapeN_mergedU {A : List (List Nat)} {n : Nat} (h : ShapeN A n) :
    ShapeN (mergedU A) n := ShapeN_T (ShapeN_mergedL (ShapeN_T h))

lemma ShapeN_mergedD {A : List (List Nat)} {n : Nat} (h : ShapeN A n) :
    ShapeN (mergedD A) n := ShapeN_T (ShapeN_mergedR (ShapeN_T h))

lemma mergedR_eq_iff (A : List (List Nat)) :
    mergedR A = A ↔ mergedL (_reverse_grid A) = _reverse_grid A := by
  constructor
  · intro hmr
    calc mergedL (_reverse_grid A)
        = _reverse_grid (_reverse_grid (mergedL (_reverse_grid A))) := (rev_rev _).symm
      _ = _reverse_grid (mergedR A) := rfl
      _ = _reverse_grid A := by rw [hmr]
  · intro h1
    show _reverse_grid (mergedL (_reverse_grid A)) = A
    rw [h1, rev_rev]

lemma mergedU_eq_iff {A : List (List Nat)} {n : Nat} (h : ShapeN A n) :
    mergedU A = A ↔ mergedL (_transpose_grid A) = _transpose_grid A := by
  constructor
  · intro hmu
    have h2 := congrArg _transpose_grid hmu
    rwa [show _transpose_grid (mergedU A)
        = _transpose_grid (_transpose_grid (mergedL (_transpose_grid A))) from rfl,
      T_T (ShapeN_mergedL (ShapeN_T h))] at h2
  · intro h1
    show _transpose_grid (mergedL (_transpose_grid A)) = A
    rw [h1, T_T h]

lemma mergedD_eq_iff {A : List (List Nat)} {n : Nat} (h : ShapeN A n) :
    mergedD A = A ↔ mergedR (_transpose_grid A) = _transpose_grid A := by
  constructor
  · intro hmd
    have h2 := congrArg _transpose_grid hmd
    rwa [show _transpose_grid (mergedD A)
        = _transpose_grid (_transpose_grid (mergedR (_transpose_grid A))) from rfl,
      T_T (ShapeN_mergedR (ShapeN_T h))] at h2
  · intro h1
    show _transpose_grid (mergedR (_transpose_grid A)) = A
    rw [h1, T_T h]

lemma right_spec (g : Game) (idx : Nat) (four : Bool) (hWF : WF g) :
    ((move_right g idx four).2 = true ↔ mergedR g.grid ≠ g.grid) ∧
    ((move_right g idx four).2 = true →
      (move_right g idx four).1.size = g.size ∧
      (move_right g idx four).1.score = g.score + gainsR g.grid ∧
      SpawnDiff (mergedR g.grid) (move_right g idx four).1.grid g.size four ∧
      ShapeN (move_right g idx four).1.grid g.size) := by
  set g1 : Game := { g with grid := _reverse_grid g.grid } with hg1
  have hWF1 : WF g1 := ShapeN_rev hWF
  rw [move_right_def]
  by_cases hm : mergedL g1.grid = g1.grid
  · have hmr : mergedR g.grid = g.grid := (mergedR_eq_iff g.grid).mpr hm
    rw [move_left_unchanged g1 idx four hm]
    dsimp only
    constructor
    · simp [hmr]
    · intro hfalse
      exact absurd hfalse (by simp)
  · obtain ⟨hiff1, himp⟩ := left_spec g1 idx four hWF1
    have hmv : (move_left g1 idx four).2 = true := hiff1.mpr hm
    obtain ⟨hsize, hscore, hdiff, hshape⟩ := himp hmv
    have hmr : mergedR g.grid ≠ g.grid := fun hc => hm ((mergedR_eq_iff g.grid).mp hc)
    dsimp only
    refine ⟨⟨fun _ => hmr, fun _ => hmv⟩, fun _ => ⟨hsize, hscore, ?_, ShapeN_rev hshape⟩⟩
    show SpawnDiff (_reverse_grid (mergedL (_reverse_grid g.grid))) _ g.size four
    exact SpawnDiff_rev (ShapeN_mergedL (ShapeN_rev hWF)) hshape hdiff

lemma up_spec (g : Game) (idx : Nat) (four : Bool) (hWF : WF g) :
    ((move_up g idx four).2 = true ↔ mergedU g.grid ≠ g.grid) ∧
    ((move_up g idx four).2 = true →
      (move_up g idx four).1.size = g.size ∧
      (move_up g idx four).1.score = g.score + gainsU g.grid ∧
      SpawnDiff (mergedU g.grid) (move_up g idx four).1.grid g.size four ∧
      ShapeN (move_up g idx four).1.grid g.size) := by
  set g1 : Game := { g with grid := _transpose_grid g.grid } with hg1
  have hWF1 : WF g1 := ShapeN_T hWF
  rw [move_up_def]
  by_cases hm : mergedL g1.grid = g1.grid
  · have hmu : mergedU g.grid = g.grid := (mergedU_eq_iff hWF).mpr hm
    rw [move_left_unchanged g1 idx four hm]
    dsimp only
    constructor
    · simp [hmu]
    · intro hfalse
      exact absurd hfalse (by simp)
  · obtain ⟨hiff1, himp⟩ := left_spec g1 idx four hWF1
    have hmv : (move_left g1 idx four).2 = true := hiff1.mpr hm
    obtain ⟨hsize, hscore, hdiff, hshape⟩ := himp hmv
    have hmu : mergedU g.grid ≠ g.grid := fun hc => hm ((mergedU_eq_iff hWF).mp hc)
    dsimp only
    refine ⟨⟨fun _ => hmu, fun _ => hmv⟩, fun _ => ⟨hsize, hscore, ?_, ShapeN_T hshape⟩⟩
    show SpawnDiff (_transpose_grid (mergedL (_transpose_grid g.grid))) _ g.size four
    exact SpawnDiff_T (ShapeN_mergedL (ShapeN_T hWF)) hshape hdiff

lemma down_spec (g : Game) (idx : Nat) (four : Bool) (hWF : WF g) :
    ((move_down g idx four).2 = true ↔ mergedD g.grid ≠ g.grid) ∧
    ((move_down g idx four).2 = true →
      (move_down g idx four).1.size = g.size ∧
      (move_down g idx four).1.score = g.score + gainsD g.grid ∧
      SpawnDiff (mergedD g.grid) (move_down g idx four).1.grid g.size four ∧
      ShapeN (move_down g idx four).1.grid g.size) := by
  set g1 : Game := { g with grid := _transpose_grid g.grid } with hg1
  have hWF1 : WF g1 := ShapeN_T hWF
  rw [move_down_def]
  obtain ⟨hiffR, himpR⟩ := right_spec g1 idx four hWF1
  by_cases hm : mergedR g1.grid = g1.grid
  · have hmd : mergedD g.grid = g.grid := (mergedD_eq_iff hWF).mpr hm
    have hmvF : (move_right g1 idx four).2 = false := by
      rcases Bool.eq_false_or_eq_true (move_right g1 idx four).2 with h' | h'
      · exact absurd hm (hiffR.mp h')
      · exact h'
    rw [hmvF]
    dsimp only
    constructor
    · simp [hmd]
    · intro hfalse
      exact absurd hfalse (by simp)
  · have hmv : (move_right g1 idx four).2 = true := hiffR.mpr hm
    obtain ⟨hsize, hscore, hdiff, hshape⟩ := himpR hmv
    have hmd : mergedD g.grid ≠ g.grid := fun hc => hm ((mergedD_eq_iff hWF).mp hc)
    rw [hmv]
    dsimp only
    refine ⟨⟨fun _ => hmd, fun _ => rfl⟩, fun _ => ⟨hsize, hscore, ?_, ShapeN_T hshape⟩⟩
    show SpawnDiff (_transpose_grid (mergedR (_transpose_grid g.grid))) _ g.size four
    exact SpawnDiff_T (ShapeN_mergedR (ShapeN_T hWF)) hshape hdiff

/-! ### Moves that change nothing -/

lemma move_right_unchanged (g : Game) (idx : Nat) (four : Bool)
    (hm : mergedR g.grid = g.grid) : move_right g idx four = (g, false) := by
  rw [move_right_def, move_left_unchanged _ idx four ((mergedR_eq_iff g.grid).mp hm)]
  show ({ g with grid := _reverse_grid (_reverse_grid g.grid) }, false) = (g, false)
  rw [rev_rev]

lemma move_up_unchanged (g : Game) (idx : Nat) (four : Bool) (hWF : WF g)
    (hm : mergedU g.grid = g.grid) : move_up g idx four = (g, false) := by
  rw [move_up_def, move_left_unchanged _ idx four ((mergedU_eq_iff hWF).mp hm)]
  show ({ g with grid := _transpose_grid (_transpose_grid g.grid) }, false) = (g, false)
  rw [T_T hWF]

lemma move_down_unchanged (g : Game) (idx : Nat) (four : Bool) (hWF : WF g)
    (hm : mergedD g.grid = g.grid) : move_down g idx four = (g, false) := by
  rw [move_down_def, move_right_unchanged _ idx four ((mergedD_eq_iff hWF).mp hm)]
  show ({ g with grid := _transpose_grid (_transpose_grid g.grid) }, false) = (g, false)
  rw [T_T hWF]

/-! ### Merge-free grids are fixed points of the grid-only moves -/

lemma noMergeRow_reverse {l : List Nat} (h : noMergeRow l.reverse) : noMergeRow l := by
  intro j hj
  have hlen : l.reverse.length = l.length := List.length_reverse l
  set m := l.length with hmdef
  have h1 := h (m - 2 - j) (by rw [hlen]; omega)
  have e1 : l.reverse.getD (m - 2 - j) 0 = l.getD (j + 1) 0 := by
    rw [getD_reverse l (by omega) 0]
    congr 1
    omega
  have e2 : l.reverse.getD (m - 2 - j + 1) 0 = l.getD j 0 := by
    rw [getD_reverse l (by omega) 0]
    congr 1
    omega
  rw [e1, e2] at h1
  by_cases heq : l.getD j 0 = l.getD (j + 1) 0
  · rcases h1 with h0 | h0
    · left
      rw [heq, h0]
    · exact absurd heq.symm h0
  · right
    exact heq

lemma noMergeGrid_of_rev {A : List (List Nat)} (h : noMergeGrid (_reverse_grid A)) :
    noMergeGrid A := by
  intro row hrow
  have hmem : row.reverse ∈ _reverse_grid A := List.mem_map_of_mem List.reverse hrow
  exact noMergeRow_reverse (h row.reverse hmem)

/-- Applying the row merge a second time changes nothing when the once-merged
grid has no mergeable pair left (its rows are already compressed). -/
lemma mergedL_idem {A : List (List Nat)} (h : noMergeGrid (mergedL A)) :
    mergedL (mergedL A) = mergedL A := by
  show (A.map mergeRow).map mergeRow = A.map mergeRow
  rw [List.map_map]
  apply List.map_congr_left
  intro a ha
  have hmem : mergeRow a ∈ mergedL A := List.mem_map_of_mem mergeRow ha
  have hrow : noMergeRow (mergeRow a) := h _ hmem
  have hcomp : _compress_line (mergeRow a) = mergeRow a := merge_line_compressed a
  show mergeRow (mergeRow a) = mergeRow a
  rw [mergeRow, merge_line_fixed (mergeRow a) hcomp hrow]

/-! ### The tile-value invariant -/

lemma TilesOK_mergedL {A : List (List Nat)} (h : TilesOK A) : TilesOK (mergedL A) := by
  intro row hrow
  obtain ⟨r, hr, rfl⟩ := List.mem_map.mp hrow
  exact merge_line_tiles r (h r hr)

lemma TilesOK_rev {A : List (List Nat)} (h : TilesOK A) : TilesOK (_reverse_grid A) := by
  intro row hrow
  obtain ⟨r, hr, rfl⟩ := List.mem_map.mp hrow
  intro v hv
  exact h r hr v (List.mem_reverse.mp hv)

lemma TilesOK_T (A : List (List Nat)) (h : TilesOK A) : TilesOK (_transpose_grid A) := by
  intro row hrow v hv
  obtain ⟨c, _, rfl⟩ := List.mem_map.mp hrow
  obtain ⟨r, hr, rfl⟩ := List.mem_map.mp hv
  by_cases hc : c < r.length
  · exact h r hr _ (getD_mem r 0 hc)
  · rw [getD_of_le r 0 (Nat.le_of_not_lt hc)]
    exact PTile_zero

lemma TilesOK_setCell {A : List (List Nat)} (h : TilesOK A) {v : Nat}
    (hv : PTile v) (r c : Nat) : TilesOK (setCell A r c v) := by
  by_cases hrL : r < A.length
  · intro row hrow
    rcases List.mem_or_eq_of_mem_set hrow with h' | h'
    · exact h row h'
    · subst h'
      intro w hw
      rcases List.mem_or_eq_of_mem_set hw with h'' | h''
      · exact h _ (getD_mem A [] hrL) w h''
      · exact h'' ▸ hv
  · unfold setCell
    rw [List.set_eq_of_length_le (Nat.le_of_not_lt hrL)]
    exact h

lemma TilesOK_spawn (g : Game) (h : TilesOK g.grid) (idx : Nat) (four : Bool) :
    TilesOK (spawn_random g idx four).grid := by
  unfold spawn_random
  by_cases hne : emptyCells g = []
  · rw [if_pos hne]
    exact h
  · rw [if_neg hne]
    apply TilesOK_setCell h
    cases four
    · exact PTile_two
    · exact PTile_four

lemma TilesOK_zeroGrid (n m : Nat) : TilesOK (List.replicate n (List.replicate m 0)) := by
  intro row hrow v hv
  rw [(List.mem_replicate.mp hrow).2] at hv
  exact ((List.mem_replicate.mp hv).2) ▸ PTile_zero

lemma TilesOK_move_left (g : Game) (h : TilesOK g.grid) (idx : Nat) (four : Bool) :
    TilesOK (move_left g idx four).1.grid := by
  rw [move_left_eq]
  by_cases hm : mergedL g.grid = g.grid
  · rw [if_pos hm]
    exact h
  · rw [if_neg hm]
    exact TilesOK_spawn _ (TilesOK_mergedL h) idx four

lemma TilesOK_move_right (g : Game) (h : TilesOK g.grid) (idx : Nat) (four : Bool) :
    TilesOK (move_right g idx four).1.grid := by
  rw [move_right_def]
  exact TilesOK_rev (TilesOK_move_left _ (TilesOK_rev h) idx four)

lemma TilesOK_move_up (g : Game) (h : TilesOK g.grid) (idx : Nat) (four : Bool) :
    TilesOK (move_up g idx four).1.grid := by
  rw [move_up_def]
  exact TilesOK_T _ (TilesOK_move_left _ (TilesOK_T _ h) idx four)

lemma TilesOK_move_down (g : Game) (h : TilesOK g.grid) (idx : Nat) (four : Bool) :
    TilesOK (move_down g idx four).1.grid := by
  rw [move_down_def]
  exact TilesOK_T _ (TilesOK_move_right _ (TilesOK_T _ h) idx four)

/-! ### Translation of can_move and the all-zero board -/

lemma can_move_iff (g : Game) :
    can_move g = true ↔
      ((∃ r < g.size, ∃ c < g.size, cellG g.grid r c = 0) ∨
       (∃ r < g.size, ∃ c, c + 1 < g.size ∧
          cellG g.grid r c = cellG g.grid r (c + 1)) ∨
       (∃ c < g.size, ∃ r, r + 1 < g.size ∧
          cellG g.grid r c = cellG g.grid (r + 1) c)) := by
  unfold can_move
  simp only [Bool.or_eq_true, List.any_eq_true, List.mem_range, beq_iff_eq]
  constructor
  · rintro ((⟨r, hr, c, hc, h0⟩ | ⟨r, hr, c, hc, h0⟩) | ⟨c, hc, r, hr, h0⟩)
    · exact Or.inl ⟨r, hr, c, hc, h0⟩
    · exact Or.inr (Or.inl ⟨r, hr, c, by omega, h0⟩)
    · exact Or.inr (Or.inr ⟨c, hc, r, by omega, h0⟩)
  · rintro (⟨r, hr, c, hc, h0⟩ | ⟨r, hr, c, hc, h0⟩ | ⟨c, hc, r, hr, h0⟩)
    · exact Or.inl (Or.inl ⟨r, hr, c, hc, h0⟩)
    · exact Or.inl (Or.inr ⟨r, hr, c, by omega, h0⟩)
    · exact Or.inr ⟨c, hc, r, by omega, h0⟩

lemma ShapeN_zeroGrid (n : Nat) :
    ShapeN (List.replicate n (List.replicate n 0)) n := by
  constructor
  · simp
  · intro row hrow
    rw [(List.mem_replicate.mp hrow).2]
    simp

lemma cellG_zeroGrid (n : Nat) {r c : Nat} (hr : r < n) (hc : c < n) :
    cellG (List.replicate n (List.replicate n 0)) r c = 0 := by
  unfold cellG
  rw [List.getD_eq_getElem _ [] (by simpa using hr), List.getElem_replicate,
    List.getD_eq_getElem _ 0 (by simpa using hc), List.getElem_replicate]

/-! ### Idempotence of the grid-only moves on merge-free results -/

lemma mergedR_idem {A : List (List Nat)} (h : noMergeGrid (mergedR A)) :
    mergedR (mergedR A) = mergedR A := by
  have hx : noMergeGrid (mergedL (_reverse_grid A)) := noMergeGrid_of_rev h
  show _reverse_grid
    (mergedL (_reverse_grid (_reverse_grid (mergedL (_reverse_grid A)))))
      = mergedR A
  rw [rev_rev, mergedL_idem hx]
  rfl

lemma mergedU_idem {A : List (List Nat)} {n : Nat} (hWF : ShapeN A n)
    (h : noMergeGrid (_transpose_grid (mergedU A))) :
    mergedU (mergedU A) = mergedU A := by
  have hTT : _transpose_grid (mergedU A) = mergedL (_transpose_grid A) := by
    show _transpose_grid (_transpose_grid (mergedL (_transpose_grid A))) = _
    exact T_T (ShapeN_mergedL (ShapeN_T hWF))
  have hx : noMergeGrid (mergedL (_transpose_grid A)) := hTT ▸ h
  show _transpose_grid (mergedL (_transpose_grid (mergedU A))) = mergedU A
  rw [hTT, mergedL_idem hx]
  rfl

lemma mergedD_idem {A : List (List Nat)} {n : Nat} (hWF : ShapeN A n)
    (h : noMergeGrid (_transpose_grid (mergedD A))) :
    mergedD (mergedD A) = mergedD A := by
  have hTT : _transpose_grid (mergedD A) = mergedR (_transpose_grid A) := by
    show _transpose_grid (_transpose_grid (mergedR (_transpose_grid A))) = _
    exact T_T (ShapeN_mergedR (ShapeN_T hWF))
  have hx : noMergeGrid (mergedR (_transpose_grid A)) := hTT ▸ h
  show _transpose_grid (mergedR (_transpose_grid (mergedD A))) = mergedD A
  rw [hTT, mergedR_idem hx]
  rfl

/-! ### The claims -/

/-- C1: for every well-formed board, each of the four moves returns
moved = true iff the merged grid for that direction differs element-wise
from the board; and when it does, the move replaces the board with the
merged grid, adds exactly the sum of all lines' gained merge scores to the
score, and then spawns exactly one new tile (the final grid differs from
the merged grid at exactly one previously-empty cell, now 2 or 4). -/
theorem C1_moves_spec (g : Game) (idx : Nat) (four : Bool) (hWF : WF g) :
    C1Statement g idx four := by
  obtain ⟨li, lm⟩ := left_spec g idx four hWF
  obtain ⟨ri, rm⟩ := right_spec g idx four hWF
  obtain ⟨ui, um⟩ := up_spec g idx four hWF
  obtain ⟨di, dm⟩ := down_spec g idx four hWF
  exact ⟨⟨li, fun h => ⟨(lm h).2.1, (lm h).2.2.1⟩⟩,
    ⟨ri, fun h => ⟨(rm h).2.1, (rm h).2.2.1⟩⟩,
    ⟨ui, fun h => ⟨(um h).2.1, (um h).2.2.1⟩⟩,
    ⟨di, fun h => ⟨(dm h).2.1, (dm h).2.2.1⟩⟩⟩

/-- Witness for C1 at a concrete 2 x 2 board with a mergeable row. -/
theorem C1_moves_spec_witness :
    C1Statement { size := 2, grid := [[2, 2], [0, 0]], score := 0 } 0 false :=
  C1_moves_spec { size := 2, grid := [[2, 2], [0, 0]], score := 0 } 0 false (by decide)

/-- C2: for every well-formed board, can_move is true iff some cell is 0,
or two horizontally adjacent cells are equal, or two vertically adjacent
cells are equal; and it is false on the alternating full 4 x 4 grid. -/
theorem C2_can_move_spec (g : Game) (hWF : WF g) : C2Statement g :=
  ⟨can_move_iff g, by decide⟩

/-- Witness for C2 at the alternating stalemate grid itself. -/
theorem C2_can_move_spec_witness :
    C2Statement { size := 4, grid := [[2, 4, 2, 4], [4, 2, 4, 2], [2, 4, 2, 4], [4, 2, 4, 2]], score := 0 } :=
  C2_can_move_spec
    { size := 4, grid := [[2, 4, 2, 4], [4, 2, 4, 2], [2, 4, 2, 4], [4, 2, 4, 2]], score := 0 }
    (by decide)

/-- C3: the two concrete merge examples, including the adjacent-pair rule
on [2,2,2,2] (two independent merges, not a four-way merge). -/
theorem C3_merge_examples :
    _merge_line [2, 2, 0, 0] = ([4, 0, 0, 0], 4) ∧
    _merge_line [2, 2, 2, 2] = ([4, 4, 0, 0], 8) := by
  decide

/-- C4 as stated is false: on the board with first row [2,2,4,0] the
grid-only left move gives [4,4,0,0] and a second application merges again
to [8,0,0,0]. -/
theorem C4_counterexample :
    ¬ (mergedL (mergedL [[2, 2, 4, 0], [0, 0, 0, 0], [0, 0, 0, 0], [0, 0, 0, 0]])
        = mergedL [[2, 2, 4, 0], [0, 0, 0, 0], [0, 0, 0, 0], [0, 0, 0, 0]]) := by
  decide

/-- C4 amended: for every well-formed board and each direction, if the
once-moved grid admits no further merge along that direction's lines, then
applying the grid-only move twice equals applying it once. -/
theorem C4_amended_idempotent (B : List (List Nat)) (n : Nat)
    (hWF : ShapeN B n) : C4Statement B :=
  ⟨fun h => mergedL_idem h, fun h => mergedR_idem h,
   fun h => mergedU_idem hWF h, fun h => mergedD_idem hWF h⟩

/-- Witness for the amended C4: a board already fully settled in every
direction, with every hypothesis discharged by evaluation. -/
theorem C4_amended_idempotent_witness :
    (mergedL (mergedL [[2, 0], [0, 0]]) = mergedL [[2, 0], [0, 0]]) ∧
    (mergedR (mergedR [[2, 0], [0, 0]]) = mergedR [[2, 0], [0, 0]]) ∧
    (mergedU (mergedU [[2, 0], [0, 0]]) = mergedU [[2, 0], [0, 0]]) ∧
    (mergedD (mergedD [[2, 0], [0, 0]]) = mergedD [[2, 0], [0, 0]]) := by
  have h := C4_amended_idempotent [[2, 0], [0, 0]] 2 (by decide)
  exact ⟨h.1 (by decide), h.2.1 (by decide), h.2.2.1 (by decide), h.2.2.2 (by decide)⟩

/-- C5: compressLine is length-preserving and returns exactly the non-zero
elements of the input, in order, followed only by zeros. -/
theorem C5_compress_spec (line : List Nat) :
    (_compress_line line).length = line.length ∧
    ∃ k, _compress_line line = line.filter (fun v => v != 0) ++ List.replicate k 0 :=
  ⟨compress_length line, ⟨line.length - (line.filter (fun v => v != 0)).length, rfl⟩⟩

/-- C6: for every well-formed board, a move whose merged grid equals the
board returns (same state, false) for all random draws: score and grid are
untouched and no spawn happens. -/
theorem C6_noop_moves (g : Game) (hWF : WF g) : C6Statement g :=
  ⟨fun hm idx four => move_left_unchanged g idx four hm,
   fun hm idx four => move_right_unchanged g idx four hm,
   fun hm idx four => move_up_unchanged g idx four hWF hm,
   fun hm idx four => move_down_unchanged g idx four hWF hm⟩

/-- Witness for C6 on the alternating full grid, where no direction moves. -/
theorem C6_noop_moves_witness :
    move_left { size := 4, grid := [[2, 4, 2, 4], [4, 2, 4, 2], [2, 4, 2, 4], [4, 2, 4, 2]], score := 0 } 0 false
      = ({ size := 4, grid := [[2, 4, 2, 4], [4, 2, 4, 2], [2, 4, 2, 4], [4, 2, 4, 2]], score := 0 }, false) ∧
    move_right { size := 4, grid := [[2, 4, 2, 4], [4, 2, 4, 2], [2, 4, 2, 4], [4, 2, 4, 2]], score := 0 } 0 false
      = ({ size := 4, grid := [[2, 4, 2, 4], [4, 2, 4, 2], [2, 4, 2, 4], [4, 2, 4, 2]], score := 0 }, false) ∧
    move_up { size := 4, grid := [[2, 4, 2, 4], [4, 2, 4, 2], [2, 4, 2, 4], [4, 2, 4, 2]], score := 0 } 0 false
      = ({ size := 4, grid := [[2, 4, 2, 4], [4, 2, 4, 2], [2, 4, 2, 4], [4, 2, 4, 2]], score := 0 }, false) ∧
    move_down { size := 4, grid := [[2, 4, 2, 4], [4, 2, 4, 2], [2, 4, 2, 4], [4, 2, 4, 2]], score := 0 } 0 false
      = ({ size := 4, grid := [[2, 4, 2, 4], [4, 2, 4, 2], [2, 4, 2, 4], [4, 2, 4, 2]], score := 0 }, false) := by
  have h := C6_noop_moves
    { size := 4, grid := [[2, 4, 2, 4], [4, 2, 4, 2], [2, 4, 2, 4], [4, 2, 4, 2]], score := 0 }
    (by decide)
  exact ⟨h.1 (by decide) 0 false, h.2.1 (by decide) 0 false,
    h.2.2.1 (by decide) 0 false, h.2.2.2 (by decide) 0 false⟩

/-- C7: reset, spawn and the four moves preserve the invariant that each
cell is 0 or a power of two that is at least 2. -/
theorem C7_tile_invariant (g : Game) (idx i1 i2 : Nat) (four f1 f2 : Bool)
    (h : TilesOK g.grid) : C7Statement g idx i1 i2 four f1 f2 := by
  refine ⟨TilesOK_spawn g h idx four, ?_, TilesOK_move_left g h idx four,
    TilesOK_move_right g h idx four, TilesOK_move_up g h idx four,
    TilesOK_move_down g h idx four⟩
  unfold reset
  exact TilesOK_spawn _ (TilesOK_spawn _ (TilesOK_zeroGrid g.size g.size) i1 f1) i2 f2

/-- Witness for C7 at a concrete board holding a 2 and three empty cells. -/
theorem C7_tile_invariant_witness :
    C7Statement { size := 2, grid := [[2, 0], [0, 0]], score := 0 } 0 0 0 false false false := by
  apply C7_tile_invariant
  intro row hrow v hv
  have hrow' : row = [2, 0] ∨ row = [0, 0] := by simpa using hrow
  rcases hrow' with rfl | rfl
  · have hv' : v = 2 ∨ v = 0 := by simpa using hv
    rcases hv' with rfl | rfl
    · exact PTile_two
    · exact PTile_zero
  · have hv' : v = 0 := by simpa using hv
    subst hv'
    exact PTile_zero

/-- C8: the defensive no-op branch of spawn_random is unreachable on the
calls the core makes: after any move that returned true the pre-spawn state
has an empty cell, both spawns of reset see empty cells when the size is at
least 2, and a spawn with an empty cell available always places a tile. -/
theorem C8_spawn_never_noop (g : Game) (idx i1 : Nat) (four f1 : Bool)
    (hWF : WF g) : C8Statement g idx i1 four f1 := by
  refine ⟨?_, ?_, ?_, ?_, ?_, ?_⟩
  · intro hmv
    have hm : mergedL g.grid ≠ g.grid := (left_spec g idx four hWF).1.mp hmv
    exact emptyCells_ne_nil (s := preL g) (zero_cell_of_changed hWF hm)
  · intro hmv
    have hm : mergedR g.grid ≠ g.grid := (right_spec g idx four hWF).1.mp hmv
    have hm' : mergedL (_reverse_grid g.grid) ≠ _reverse_grid g.grid :=
      fun hc => hm ((mergedR_eq_iff g.grid).mpr hc)
    exact emptyCells_ne_nil (s := preR g)
      (zero_cell_of_changed (ShapeN_rev hWF) hm')
  · intro hmv
    have hm : mergedU g.grid ≠ g.grid := (up_spec g idx four hWF).1.mp hmv
    have hm' : mergedL (_transpose_grid g.grid) ≠ _transpose_grid g.grid :=
      fun hc => hm ((mergedU_eq_iff hWF).mpr hc)
    exact emptyCells_ne_nil (s := preU g)
      (zero_cell_of_changed (ShapeN_T hWF) hm')
  · intro hmv
    have hm : mergedD g.grid ≠ g.grid := (down_spec g idx four hWF).1.mp hmv
    have hm1 : mergedR (_transpose_grid g.grid) ≠ _transpose_grid g.grid :=
      fun hc => hm ((mergedD_eq_iff hWF).mpr hc)
    have hm' : mergedL (_reverse_grid (_transpose_grid g.grid))
        ≠ _reverse_grid (_transpose_grid g.grid) :=
      fun hc => hm1 ((mergedR_eq_iff (_transpose_grid g.grid)).mpr hc)
    exact emptyCells_ne_nil (s := preD g)
      (zero_cell_of_changed (ShapeN_rev (ShapeN_T hWF)) hm')
  · intro hn
    have hne0 : emptyCells (resetZero g) ≠ [] := by
      refine emptyCells_ne_nil (s := resetZero g) ⟨0, 0, ?_, ?_, ?_⟩
      · show 0 < g.size
        omega
      · show 0 < g.size
        omega
      · show cellG (List.replicate g.size (List.replicate g.size 0)) 0 0 = 0
        exact cellG_zeroGrid g.size (by omega) (by omega)
    refine ⟨hne0, ?_⟩
    obtain ⟨r, c, hr, hc, hz, hgrid⟩ := spawn_spec (resetZero g) i1 f1 hne0
    by_cases hrc : r = 0 ∧ c = 0
    · refine emptyCells_ne_nil (s := spawn_random (resetZero g) i1 f1) ⟨1, 1, ?_, ?_, ?_⟩
      · rw [spawn_size]
        show 1 < g.size
        omega
      · rw [spawn_size]
        show 1 < g.size
        omega
      · rw [hgrid, cellG_setCell_ne _ r c _ 1 1
          (by rintro ⟨h1', -⟩; rw [hrc.1] at h1'; exact absurd h1' (by decide))]
        show cellG (List.replicate g.size (List.replicate g.size 0)) 1 1 = 0
        exact cellG_zeroGrid g.size (by omega) (by omega)
    · refine emptyCells_ne_nil (s := spawn_random (resetZero g) i1 f1) ⟨0, 0, ?_, ?_, ?_⟩
      · rw [spawn_size]
        show 0 < g.size
        omega
      · rw [spawn_size]
        show 0 < g.size
        omega
      · push_neg at hrc
        rw [hgrid, cellG_setCell_ne _ r c _ 0 0
          (by rintro ⟨h1', h2'⟩; exact hrc h1'.symm h2'.symm)]
        show cellG (List.replicate g.size (List.replicate g.size 0)) 0 0 = 0
        exact cellG_zeroGrid g.size (by omega) (by omega)
  · intro s hs hne i f
    obtain ⟨r, c, hr, hc, hz, hgrid⟩ := spawn_spec s i f hne
    refine ⟨r, c, hr, hc, hz, ?_⟩
    rw [hgrid]
    exact cellG_setCell_self hs hr hc _

/-- Witness for C8 at a concrete 2 x 2 board with a mergeable row. -/
theorem C8_spawn_never_noop_witness :
    C8Statement { size := 2, grid := [[2, 2], [0, 0]], score := 0 } 0 0 false false :=
  C8_spawn_never_noop { size := 2, grid := [[2, 2], [0, 0]], score := 0 } 0 0 false false
    (by decide)

/-- C9: on well-formed square boards, transpose and row-reversal are
involutions. -/
theorem C9_involutions (B : List (List Nat)) (n : Nat) (hWF : ShapeN B n) :
    _transpose_grid (_transpose_grid B) = B ∧
    _reverse_grid (_reverse_grid B) = B :=
  ⟨T_T hWF, rev_rev B⟩

/-- Witness for C9 at a concrete 2 x 2 board. -/
theorem C9_involutions_witness :
    _transpose_grid (_transpose_grid [[2, 4], [8, 16]]) = [[2, 4], [8, 16]] ∧
    _reverse_grid (_reverse_grid [[2, 4], [8, 16]]) = [[2, 4], [8, 16]] :=
  C9_involutions [[2, 4], [8, 16]] 2 (by decide)

/-- C10: the grid-only part of each of the four moves preserves the total
of all cell values. -/
theorem C10_sum_preserved (B : List (List Nat)) (n : Nat) (hWF : ShapeN B n) :
    C10Statement B := by
  refine ⟨gridSum_mergedL B, ?_, ?_, ?_⟩
  · show gridSum (_reverse_grid (mergedL (_reverse_grid B))) = gridSum B
    rw [gridSum_rev, gridSum_mergedL, gridSum_rev]
  · show gridSum (_transpose_grid (mergedL (_transpose_grid B))) = gridSum B
    rw [gridSum_T (ShapeN_mergedL (ShapeN_T hWF)), gridSum_mergedL, gridSum_T hWF]
  · show gridSum (_transpose_grid (mergedR (_transpose_grid B))) = gridSum B
    rw [gridSum_T (ShapeN_mergedR (ShapeN_T hWF))]
    show gridSum (_reverse_grid (mergedL (_reverse_grid (_transpose_grid B)))) = gridSum B
    rw [gridSum_rev, gridSum_mergedL, gridSum_rev, gridSum_T hWF]

/-- Witness for C10 at a concrete 2 x 2 board. -/
theorem C10_sum_preserved_witness : C10Statement [[2, 2], [4, 0]] :=
  C10_sum_preserved [[2, 2], [4, 0]] 2 (by decide)

end Game2048
